import Mathlib

/-!
Shallow embedding of the `test-fork` crate's fork-simulation core
(`src/core/src/fork.rs`, `src/core/src/sugar.rs`, `src/core/src/error.rs`,
`src/core/src/fork_test.rs`) together with proofs of the specified
properties.

Strings are modelled as `List Char` (all strings involved are ASCII, so
byte length and character length coincide); byte buffers and streams as
`List Nat` with values below 256.
-/

namespace TestFork

/-! ## Fork-Point Identity (`src/core/src/sugar.rs`) -/

/-- One uppercase hexadecimal digit, as produced by Rust's `{:X}` formatting. -/
def hexDigitUpper (n : Nat) : Char :=
  if n < 10 then Char.ofNat (48 + n) else Char.ofNat (55 + n)

/-- Whether a character is an uppercase hexadecimal digit (`0`-`9`, `A`-`F`). -/
def isHexDigitChar (c : Char) : Bool :=
  (48 ≤ c.toNat && c.toNat ≤ 57) || (65 ≤ c.toNat && c.toNat ≤ 70)

/-- The 16 hex digits of a 64-bit value, most significant first: the output of
Rust's `{:016X}` format specifier on a `u64`. -/
def toHex16 (v : Nat) : List Char :=
  (List.range 16).map (fun i => hexDigitUpper (v / 16 ^ (15 - i) % 16))

/-- Embedding of `RustyForkId`'s `Display` implementation
(`write!(f, ":{:016X}", hasher.finish())`): `h` is the hasher's 64-bit
`finish()` value, itself a deterministic pure function of the call site's
`TypeId`. -/
def renderForkId (h : Nat) : List Char :=
  ':' :: toHex16 (h % 2 ^ 64)

/-! ## Substring search (Rust's `str::contains` / `str::find`) -/

/-- `beginsWith l n` holds when `n` is a prefix of `l`. -/
def beginsWith : List Char → List Char → Bool
  | _, [] => true
  | [], _ :: _ => false
  | a :: as, b :: bs => a == b && beginsWith as bs

/-- `containsSeq l n`: `n` occurs as a contiguous subsequence of `l`; the
model of Rust's `str::contains` substring test. -/
def containsSeq : List Char → List Char → Bool
  | [], needle => beginsWith [] needle
  | a :: t, needle => beginsWith (a :: t) needle || containsSeq t needle

/-- `strFind n l`: index of the first occurrence of `n` in `l`; the model of
Rust's `str::find`. -/
def strFind (needle : List Char) : List Char → Option Nat
  | [] => if beginsWith [] needle then some 0 else none
  | a :: t =>
    if beginsWith (a :: t) needle then some 0
    else (strFind needle t).map (· + 1)

/-! ## `fix_module_path` (`src/core/src/fork_test.rs`) -/

/-- Embedding of `fix_module_path`:
`path.find("::").map(|ix| &path[ix + 2..]).unwrap_or(path)`. -/
def fix_module_path (path : List Char) : List Char :=
  match strFind [':', ':'] path with
  | some ix => path.drop (ix + 2)
  | none => path

/-! ## Errors (`src/core/src/error.rs`) -/

/-- Embedding of the `Error` enum. An `io::Error` is modelled as its raw OS
error code. -/
inductive Error : Type where
  | UnknownFlag (flag : List Char)
  | DisallowedFlag (flag msg : List Char)
  | SpawnError (err : Nat)
  deriving Repr, DecidableEq

/-- Embedding of `impl From<io::Error> for Error`. -/
def errorFromIo (e : Nat) : Error := Error.SpawnError e

/-! ## The fork engine (`src/core/src/fork.rs`) -/

/-- `OCCURS_ENV`: the environment variable carrying the Occurrence Trail. -/
def OCCURS_ENV : String := "TEST_FORK_OCCURS"

/-- `OCCURS_TERM_LENGTH`: ':' plus 16 hexits. -/
def OCCURS_TERM_LENGTH : Nat := 17

/-- The three `Stdio` dispositions used when building the child command. -/
inductive StdioDisp : Type where
  | null
  | piped
  | inherit
  deriving Repr, DecidableEq

/-- The spawn descriptor assembled by `fork_impl` before calling `spawn()`:
program, argument list, the `OCCURS_ENV` value, any extra environment
variables added by the `process_modifier`, and the stream dispositions. -/
structure SpawnDescriptor : Type where
  program : List Char
  args : List (List Char)
  trailEnv : List Char
  extraEnv : List (List Char × List Char)
  stdinDisp : StdioDisp
  stdoutDisp : StdioDisp
  stderrDisp : StdioDisp
  deriving Repr, DecidableEq

/-- Building the child `Command` in `fork_impl`'s parent branch:
current executable, `strip_cmdline` output, `RUN_TEST_ARGS`, the test name,
the extended trail in `OCCURS_ENV`, stdin null, stdout and stderr piped. -/
def buildCommand (exe : List Char) (stripped runArgs : List (List Char))
    (testName occursNew : List Char)
    (extraEnv : List (List Char × List Char)) : SpawnDescriptor :=
  { program := exe
    args := stripped ++ runArgs ++ [testName]
    trailEnv := occursNew
    extraEnv := extraEnv
    stdinDisp := StdioDisp.null
    stdoutDisp := StdioDisp.piped
    stderrDisp := StdioDisp.piped }

/-- The exit code computed in `fork_impl`'s child branch from the body's
outcome: `outcome` is the result of `panic::catch_unwind` (`Except.error`
means the body panicked) and `report` is `Termination::report` as a raw
exit-code value, with `0` standing for `ExitCode::SUCCESS`. -/
def childExitCode {T : Type} (outcome : Except Unit T) (report : T → Nat) : Nat :=
  match outcome with
  | Except.ok r => if report r = 0 then 0 else 70
  | Except.error _ => 70

/-- The observable result of one `fork_impl` invocation. -/
inductive ForkResult (R : Type) : Type where
  | exitProcess (code : Nat)
  | fatalPanic
  | ok (r : R)
  | err (e : Error)
  deriving Repr, DecidableEq

/-- Embedding of `fork_impl`. `occursEnv` is `env::var(OCCURS_ENV)` (`none`
when absent); `strippedArgs` is the result of `cmdline::strip_cmdline`,
modelled from the spec as an external argument-filter collaborator that
either yields the forwarded argument list or a typed error; `runTestArgs`
is `cmdline::RUN_TEST_ARGS`, modelled from the spec as the fixed
"run a single named test" arguments; `extraEnv` captures the environment
variables added by the `process_modifier` closure; `spawnFn` is the OS
`spawn()`, failing with a raw error code; `childOutcome` and `report`
describe what the test body does when run in child role. -/
def fork_impl {Child R T : Type} (occursEnv : Option (List Char))
    (forkId testName exe : List Char)
    (strippedArgs : Except Error (List (List Char)))
    (runTestArgs : List (List Char))
    (extraEnv : List (List Char × List Char))
    (spawnFn : SpawnDescriptor → Except Nat Child)
    (inParent : Child → R)
    (childOutcome : Except Unit T) (report : T → Nat) : ForkResult R :=
  let occurs := occursEnv.getD []
  if containsSeq occurs forkId then
    ForkResult.exitProcess (childExitCode childOutcome report)
  else if occurs.length > 16 * OCCURS_TERM_LENGTH then
    ForkResult.fatalPanic
  else
    match strippedArgs with
    | Except.error e => ForkResult.err e
    | Except.ok stripped =>
      match spawnFn (buildCommand exe stripped runTestArgs testName
          (occurs ++ forkId) extraEnv) with
      | Except.error e => ForkResult.err (errorFromIo e)
      | Except.ok child => ForkResult.ok (inParent child)

/-! ## Data exchange (`fork_in_out`, `src/core/src/fork.rs`) -/

/-- Embedding of `Read::read_exact` over a byte stream: succeeds only when at
least `n` bytes are available, consuming exactly `n`. -/
def read_exactM (stream : List Nat) (n : Nat) : Except Unit (List Nat × List Nat) :=
  if n ≤ stream.length then Except.ok (stream.take n, stream.drop n)
  else Except.error ()

/-- Embedding of the `fork_in_out` exchange protocol on the success path:
the parent's `write_all(data)` puts `data` on the wire; the child
`read_exact`s `data.length` bytes into a fresh buffer, runs the body over
that buffer in place, and `write_all`s it back; the parent `read_exact`s
`data.length` bytes back into `data` in place. The returned list is the
parent's buffer after the call. -/
def fork_in_out (body : List Nat → List Nat) (data : List Nat) :
    Except Unit (List Nat) :=
  match read_exactM data data.length with
  | Except.error e => Except.error e
  | Except.ok (childBuf, _) =>
    let mutated := body childBuf
    match read_exactM mutated data.length with
    | Except.error e => Except.error e
    | Except.ok (newData, _) => Except.ok newData

/-- The body used in the `data_exchange` test: increment every byte
(`u8` arithmetic, hence modulo 256). -/
def incBody (l : List Nat) : List Nat := l.map (fun x => (x + 1) % 256)

/-! ## Output relay (`KillOnDrop::drop` and `drain`, `src/core/src/fork.rs`) -/

/-- Whether a byte is a UTF-8 continuation byte (`0x80..=0xBF`). -/
def isCont (b : Nat) : Bool := 128 ≤ b && b ≤ 191

/-- The Unicode replacement character emitted for invalid byte sequences. -/
def replChar : Char := Char.ofNat 0xFFFD

/-- Valid ranges for the first continuation byte of a three-byte sequence
(`0xE0` requires `0xA0..=0xBF`, `0xED` requires `0x80..=0x9F`). -/
def contOk3 (b c : Nat) : Bool :=
  if b = 224 then 160 ≤ c && c ≤ 191
  else if b = 237 then 128 ≤ c && c ≤ 159
  else isCont c

/-- Valid ranges for the first continuation byte of a four-byte sequence
(`0xF0` requires `0x90..=0xBF`, `0xF4` requires `0x80..=0x8F`). -/
def contOk4 (b c : Nat) : Bool :=
  if b = 240 then 144 ≤ c && c ≤ 191
  else if b = 244 then 128 ≤ c && c ≤ 143
  else isCont c

/-- Embedding of `String::from_utf8_lossy`: total UTF-8 decoding with each
maximal invalid subpart replaced by `U+FFFD`; it succeeds on every byte
sequence. -/
def utf8LossyChars : List Nat → List Char
  | [] => []
  | b :: rest =>
    if b < 128 then Char.ofNat b :: utf8LossyChars rest
    else if 194 ≤ b && b ≤ 223 then
      match rest with
      | [] => [replChar]
      | c :: rest2 =>
        if isCont c then
          Char.ofNat ((b - 192) * 64 + (c - 128)) :: utf8LossyChars rest2
        else replChar :: utf8LossyChars (c :: rest2)
    else if 224 ≤ b && b ≤ 239 then
      match rest with
      | [] => [replChar]
      | c :: rest2 =>
        if contOk3 b c then
          match rest2 with
          | [] => [replChar]
          | d :: rest3 =>
            if isCont d then
              Char.ofNat ((b - 224) * 4096 + (c - 128) * 64 + (d - 128)) ::
                utf8LossyChars rest3
            else replChar :: utf8LossyChars (d :: rest3)
        else replChar :: utf8LossyChars (c :: rest2)
    else if 240 ≤ b && b ≤ 244 then
      match rest with
      | [] => [replChar]
      | c :: rest2 =>
        if contOk4 b c then
          match rest2 with
          | [] => [replChar]
          | d :: rest3 =>
            if isCont d then
              match rest3 with
              | [] => [replChar]
              | e :: rest4 =>
                if isCont e then
                  Char.ofNat ((b - 240) * 262144 + (c - 128) * 4096 +
                      (d - 128) * 64 + (e - 128)) :: utf8LossyChars rest4
                else replChar :: utf8LossyChars (e :: rest4)
            else replChar :: utf8LossyChars (d :: rest3)
        else replChar :: utf8LossyChars (c :: rest2)
    else replChar :: utf8LossyChars rest

/-- The chunking performed by `drain`'s `read_until(b'\n')` loop. `err`
records whether the underlying reader fails (returns `Err`) once the listed
bytes are exhausted, instead of reporting end-of-stream; `acc` is the
partial line accumulated so far in `buf`. A chunk is emitted for every
line-feed, a trailing chunk without a line-feed is emitted at end-of-stream,
and a read error breaks the loop without emitting. -/
def drainGo (err : Bool) : List Nat → List Nat → List (List Nat)
  | [], acc => if err then [] else if acc = [] then [] else [acc]
  | b :: t, acc =>
    if b = 10 then (acc ++ [10]) :: drainGo err t []
    else drainGo err t (acc ++ [b])

/-- One captured child stream: its full byte content, and whether reading
it fails (rather than reaching end-of-stream) after those bytes. -/
structure StreamModel : Type where
  bytes : List Nat
  readErr : Bool

/-- Embedding of `drain`: the chunks re-emitted to the parent's
corresponding stream, each decoded with `String::from_utf8_lossy`. -/
def drainOutput (s : StreamModel) : List (List Char) :=
  (drainGo s.readErr s.bytes []).map utf8LossyChars

/-- Embedding of `KillOnDrop::drop`'s relay phase: after the kill request,
drain the captured stdout, then the captured stderr, each into the parent's
corresponding stream. -/
def killOnDropTeardown (stdoutS stderrS : StreamModel) :
    List (List Char) × List (List Char) :=
  (drainOutput stdoutS, drainOutput stderrS)

/-! ## Concrete inputs used by closed evaluations -/

/-- A well-formed Occurrence Trail entry: ':' followed by 16 hex digits. -/
def sampleEntry : List Char := ':' :: List.replicate 16 '0'

/-- A distinct well-formed fork id, not occurring in trails built from
`sampleEntry`. -/
def sampleId : List Char := ':' :: (List.replicate 15 '0' ++ ['1'])

/-- A trail holding exactly 16 entries (`16 * 17 = 272` bytes). -/
def trail16 : List Char := (List.replicate 16 sampleEntry).flatten

/-- A trail holding exactly 17 entries (`17 * 17 = 289` bytes). -/
def trail17 : List Char := (List.replicate 17 sampleEntry).flatten

/-- Well-formedness of a rendered Fork-Point Identity / Occurrence Trail
entry: a ':' delimiter followed by 16 hexadecimal digits. -/
def entryWf (e : List Char) : Prop :=
  e.head? = some ':' ∧ e.length = 17 ∧ ∀ c ∈ e.tail, isHexDigitChar c = true

instance (e : List Char) : Decidable (entryWf e) :=
  inferInstanceAs (Decidable (e.head? = some ':' ∧ e.length = 17 ∧
    ∀ c ∈ e.tail, isHexDigitChar c = true))

/-! ## Helper lemmas -/

theorem beginsWith_iff (l n : List Char) :
    beginsWith l n = true ↔ ∃ t, l = n ++ t := by
  induction n generalizing l with
  | nil => simp [beginsWith]
  | cons b bs ih =>
    cases l with
    | nil => simp [beginsWith]
    | cons a as =>
      simp only [beginsWith, Bool.and_eq_true, beq_iff_eq, ih, List.cons_append,
        List.cons.injEq]
      constructor
      · rintro ⟨rfl, t, rfl⟩
        exact ⟨t, rfl, rfl⟩
      · rintro ⟨t, rfl, rfl⟩
        exact ⟨rfl, t, rfl⟩

theorem containsSeq_iff (l n : List Char) :
    containsSeq l n = true ↔ ∃ s t, l = s ++ n ++ t := by
  induction l with
  | nil =>
    simp only [containsSeq, beginsWith_iff]
    constructor
    · rintro ⟨t, ht⟩
      exact ⟨[], t, by simpa using ht⟩
    · rintro ⟨s, t, h⟩
      rw [List.append_assoc] at h
      have hs := List.append_eq_nil.1 h.symm
      have hnt := List.append_eq_nil.1 hs.2
      exact ⟨[], by simp [hnt.1]⟩
  | cons a l ih =>
    simp only [containsSeq, Bool.or_eq_true, beginsWith_iff, ih]
    constructor
    · rintro (⟨t, h⟩ | ⟨s, t, rfl⟩)
      · exact ⟨[], t, by simpa using h⟩
      · exact ⟨a :: s, t, rfl⟩
    · rintro ⟨s, t, h⟩
      cases s with
      | nil => exact Or.inl ⟨t, by simpa using h⟩
      | cons c s =>
        rw [List.cons_append] at h
        injection h with h1 h2
        subst h1
        exact Or.inr ⟨s, t, h2⟩

theorem hexDigitUpper_isHex (k : Nat) (hk : k < 16) :
    isHexDigitChar (hexDigitUpper k) = true := by
  have h : ∀ m, m < 16 → isHexDigitChar (hexDigitUpper m) = true := by decide
  exact h k hk

theorem isHexDigitChar_ne_colon (c : Char) (h : isHexDigitChar c = true) :
    c ≠ ':' := by
  intro heq
  subst heq
  exact absurd h (by decide)

theorem noColonSkip (fs : List Char) (hfs : ∀ c ∈ fs, c ≠ ':')
    (s target t J : List Char) (htarget : target.head? = some ':')
    (heq : fs ++ J = s ++ target ++ t) :
    ∃ u v, J = u ++ target ++ v := by
  induction fs generalizing s with
  | nil => exact ⟨s, t, by simpa using heq⟩
  | cons f fs ih =>
    cases s with
    | nil =>
      cases target with
      | nil => simp at htarget
      | cons tc ttail =>
        rw [List.head?_cons, Option.some.injEq] at htarget
        rw [List.nil_append, List.cons_append, List.cons_append] at heq
        injection heq with h1 _
        exact absurd (h1.trans htarget) (hfs f (by simp))
    | cons c s2 =>
      rw [List.cons_append, List.cons_append, List.cons_append] at heq
      injection heq with _ h2
      exact ih (fun x hx => hfs x (by simp [hx])) s2 (by simpa using h2)

theorem entry_mem_of_contains (entries : List (List Char)) (target : List Char)
    (hent : ∀ e ∈ entries, entryWf e) (htgt : entryWf target)
    (hc : containsSeq entries.flatten target = true) : target ∈ entries := by
  induction entries with
  | nil =>
    exfalso
    obtain ⟨h1, _, _⟩ := htgt
    cases target with
    | nil => simp at h1
    | cons a b => simp [containsSeq, beginsWith] at hc
  | cons e es ih =>
    obtain ⟨s, t, heq⟩ := (containsSeq_iff _ _).1 hc
    rw [List.flatten_cons] at heq
    obtain ⟨he1, he2, he3⟩ := hent e (by simp)
    obtain ⟨ht1, ht2, _⟩ := htgt
    cases s with
    | nil =>
      rw [List.nil_append] at heq
      have hlen : e.length = target.length := by rw [he2, ht2]
      obtain ⟨rfl, -⟩ := List.append_inj heq hlen
      exact List.mem_cons_self e es
    | cons c s2 =>
      cases e with
      | nil => simp at he1
      | cons ec fs =>
        rw [List.cons_append] at heq
        injection heq with _ h2
        have hfs : ∀ ch ∈ fs, ch ≠ ':' := fun ch hch =>
          isHexDigitChar_ne_colon ch (he3 ch (by simpa using hch))
        obtain ⟨u, v, hJ⟩ := noColonSkip fs hfs s2 target t es.flatten ht1 h2
        have hcs : containsSeq es.flatten target = true :=
          (containsSeq_iff _ _).2 ⟨u, v, hJ⟩
        exact List.mem_cons_of_mem _ (ih (fun x hx => hent x (by simp [hx])) hcs)

theorem contains_of_entry_mem (entries : List (List Char)) (target : List Char)
    (hmem : target ∈ entries) : containsSeq entries.flatten target = true := by
  rw [containsSeq_iff]
  obtain ⟨pre, post, rfl⟩ := List.append_of_mem hmem
  exact ⟨pre.flatten, post.flatten, by simp⟩

theorem containsSeq_eq_isSome (l n : List Char) :
    containsSeq l n = (strFind n l).isSome := by
  induction l with
  | nil =>
    by_cases h : beginsWith [] n = true <;> simp [containsSeq, strFind, h]
  | cons a t ih =>
    by_cases h : beginsWith (a :: t) n = true <;>
      simp [containsSeq, strFind, h, ih]

theorem strFind_first_occurrence (a b : List Char)
    (hfirst : containsSeq (a ++ [':']) [':', ':'] = false) :
    strFind [':', ':'] (a ++ ':' :: ':' :: b) = some a.length := by
  induction a with
  | nil => simp [strFind, beginsWith]
  | cons x a2 ih =>
    rw [List.cons_append, containsSeq, Bool.or_eq_false_iff] at hfirst
    obtain ⟨hfx, hfrest⟩ := hfirst
    have hx : beginsWith (x :: (a2 ++ ':' :: ':' :: b)) [':', ':'] = false := by
      cases a2 with
      | nil => simpa [beginsWith] using hfx
      | cons y a3 => simpa [beginsWith] using hfx
    rw [List.cons_append, strFind, hx]
    simp only [Bool.false_eq_true, if_false, ih hfrest, List.length_cons]
    rfl

theorem drop_append_two (a b : List Char) (x y : Char) :
    (a ++ x :: y :: b).drop (a.length + 2) = b := by
  induction a with
  | nil => simp
  | cons c a ih =>
    rw [List.cons_append, List.length_cons]
    have harith : a.length + 1 + 2 = a.length + 2 + 1 := by omega
    rw [harith, List.drop_succ_cons, ih]

theorem drainGo_flatten (bytes : List Nat) : ∀ acc : List Nat,
    (drainGo false bytes acc).flatten = acc ++ bytes := by
  induction bytes with
  | nil =>
    intro acc
    by_cases h : acc = [] <;> simp [drainGo, h]
  | cons b t ih =>
    intro acc
    by_cases hb : b = 10
    · subst hb
      simp [drainGo, ih]
    · simp [drainGo, hb, ih]

theorem drainGo_chunk_shape (err : Bool) (bytes : List Nat) :
    ∀ acc : List Nat, (∀ x ∈ acc, x ≠ 10) →
    ∀ c ∈ drainGo err bytes acc, c ≠ [] ∧ ∀ x ∈ c.dropLast, x ≠ 10 := by
  induction bytes with
  | nil =>
    intro acc hacc c hc
    by_cases he : err = true
    · simp [drainGo, he] at hc
    · rw [Bool.not_eq_true] at he
      by_cases ha : acc = []
      · simp [drainGo, he, ha] at hc
      · simp [drainGo, he, ha] at hc
        subst hc
        exact ⟨ha, fun x hx => hacc x (List.dropLast_subset _ hx)⟩
  | cons b t ih =>
    intro acc hacc c hc
    by_cases hb : b = 10
    · subst hb
      rw [drainGo, if_pos rfl, List.mem_cons] at hc
      rcases hc with rfl | hc
      · refine ⟨by simp, fun x hx => ?_⟩
        rw [List.dropLast_concat] at hx
        exact hacc x hx
      · exact ih [] (by simp) c hc
    · rw [drainGo, if_neg hb] at hc
      refine ih (acc ++ [b]) ?_ c hc
      intro x hx
      rcases List.mem_append.1 hx with h | h
      · exact hacc x h
      · rw [List.mem_singleton] at h
        subst h
        exact hb

/-! ## Claim theorems -/

set_option maxRecDepth 10000 in
/-- C1: the fork-bomb guard is evaluated at a trail of exactly 16 entries
(272 bytes): the code's check `occurs.len() > 16 * OCCURS_TERM_LENGTH`
compares `272 > 272`, which is false, so `fork_impl` proceeds to spawn a
17th level instead of failing fatally as the claim (and the function's own
documentation) states; only from 17 entries on does the guard panic. -/
theorem claim_C1 :
    trail16.length = 16 * OCCURS_TERM_LENGTH ∧
    @fork_impl Nat Nat Unit (some trail16) sampleId
      [] [] (Except.ok []) [] [] (fun _ => Except.ok 0) (fun c => c)
      (Except.ok ()) (fun _ => 0) = ForkResult.ok 0 ∧
    trail17.length = 17 * OCCURS_TERM_LENGTH ∧
    @fork_impl Nat Nat Unit (some trail17) sampleId
      [] [] (Except.ok []) [] [] (fun _ => Except.ok 0) (fun c => c)
      (Except.ok ()) (fun _ => 0) = ForkResult.fatalPanic := by
  refine ⟨by decide, by decide, by decide, by decide⟩

/-- C3: in child role (the trail contains the Fork-Point Identity),
`fork_impl` runs the body inside a `catch_unwind` boundary and the process
exits without returning control: the result is always `exitProcess` with
the code derived from the body's outcome — 0 when the `Termination` report
is success, 70 when it is failure, and 70 when the body panicked. -/
theorem claim_C3 {Child R T : Type} (occursEnv : Option (List Char))
    (forkId testName exe : List Char)
    (strippedArgs : Except Error (List (List Char)))
    (runTestArgs : List (List Char))
    (extraEnv : List (List Char × List Char))
    (spawnFn : SpawnDescriptor → Except Nat Child) (inParent : Child → R)
    (childOutcome : Except Unit T) (report : T → Nat)
    (hchild : containsSeq (occursEnv.getD []) forkId = true) :
    fork_impl occursEnv forkId testName exe strippedArgs runTestArgs extraEnv
        spawnFn inParent childOutcome report =
      ForkResult.exitProcess (childExitCode childOutcome report) ∧
    (∀ r, childOutcome = Except.ok r → report r = 0 →
      childExitCode childOutcome report = 0) ∧
    (∀ r, childOutcome = Except.ok r → report r ≠ 0 →
      childExitCode childOutcome report = 70) ∧
    (∀ u, childOutcome = Except.error u →
      childExitCode childOutcome report = 70) := by
  refine ⟨by simp [fork_impl, hchild], ?_, ?_, ?_⟩
  · rintro r rfl hr
    simp [childExitCode, hr]
  · rintro r rfl hr
    simp [childExitCode, hr]
  · rintro u rfl
    rfl

/-- Witness for C3 at a concrete child-role invocation. -/
theorem claim_C3_witness :
    @fork_impl Unit Unit Unit (some sampleId) sampleId
      [] [] (Except.ok []) [] [] (fun _ => Except.ok ()) (fun _ => ())
      (Except.ok ()) (fun _ => 0) = ForkResult.exitProcess 0 := by
  have h := @claim_C3 Unit Unit Unit (some sampleId)
    sampleId [] [] (Except.ok []) [] [] (fun _ => Except.ok ()) (fun _ => ())
    (Except.ok ()) (fun _ => 0) (by decide)
  simpa [childExitCode] using h.1

/-- C4: the role decision of `fork_impl` is exactly the substring test on
the trail environment variable: an absent variable behaves as the empty
string, and the invocation takes child role (exits the process) if and only
if the trail contains the Fork-Point Identity as a substring. -/
theorem claim_C4 {Child R T : Type} (occursEnv : Option (List Char))
    (forkId testName exe : List Char)
    (strippedArgs : Except Error (List (List Char)))
    (runTestArgs : List (List Char))
    (extraEnv : List (List Char × List Char))
    (spawnFn : SpawnDescriptor → Except Nat Child) (inParent : Child → R)
    (childOutcome : Except Unit T) (report : T → Nat) :
    fork_impl none forkId testName exe strippedArgs runTestArgs extraEnv
        spawnFn inParent childOutcome report =
      fork_impl (some []) forkId testName exe strippedArgs runTestArgs
        extraEnv spawnFn inParent childOutcome report ∧
    ((∃ code, fork_impl occursEnv forkId testName exe strippedArgs
        runTestArgs extraEnv spawnFn inParent childOutcome report =
        ForkResult.exitProcess code) ↔
      containsSeq (occursEnv.getD []) forkId = true) := by
  refine ⟨rfl, ?_⟩
  by_cases h : containsSeq (occursEnv.getD []) forkId = true
  · simp only [h, iff_true]
    exact ⟨childExitCode childOutcome report, by simp [fork_impl, h]⟩
  · have hb : containsSeq (occursEnv.getD []) forkId = false := by simpa using h
    rw [hb]
    simp only [Bool.false_eq_true, iff_false]
    rintro ⟨code, hc⟩
    by_cases hg : (occursEnv.getD []).length > 16 * OCCURS_TERM_LENGTH
    · simp [fork_impl, hb, hg] at hc
    · cases strippedArgs with
      | error e => simp [fork_impl, hb, hg] at hc
      | ok stripped =>
        cases hsf : spawnFn (buildCommand exe stripped runTestArgs testName
            (occursEnv.getD [] ++ forkId) extraEnv) with
        | error e2 => simp [fork_impl, hb, hg, hsf] at hc
        | ok child => simp [fork_impl, hb, hg, hsf] at hc

/-- C5: the rendered Fork-Point Identity is exactly one ':' delimiter
followed by exactly 16 hexadecimal digits, and rendering is a deterministic
function of the hashed call-site identity, hence equal across any two
processes of the same executable. -/
theorem claim_C5 (h : Nat) :
    (renderForkId h).length = 17 ∧
    (renderForkId h).head? = some ':' ∧
    (∀ c ∈ (renderForkId h).tail, isHexDigitChar c = true) ∧
    (∀ h2 : Nat, h = h2 → renderForkId h = renderForkId h2) := by
  refine ⟨by simp [renderForkId, toHex16], rfl, ?_, ?_⟩
  · intro c hc
    simp only [renderForkId, List.tail_cons, toHex16, List.mem_map,
      List.mem_range] at hc
    obtain ⟨i, -, rfl⟩ := hc
    exact hexDigitUpper_isHex _ (Nat.mod_lt _ (by norm_num))
  · rintro h2 rfl
    rfl

/-- Witness for C5: the hex-digit property applied at a concrete digit of a
concretely rendered identity. -/
theorem claim_C5_witness : isHexDigitChar '0' = true :=
  (claim_C5 0).2.2.1 '0' (by decide)

/-- C2: for every buffer and every body (which, operating on `&mut [u8]`,
preserves length), a successful `fork_in_out` exchange returns the buffer
with its original length and with content equal to the body applied to the
original content; in particular `[1,2,3,4,5]` with an increment-each-byte
body yields `[2,3,4,5,6]`. -/
theorem claim_C2 (body : List Nat → List Nat) (data : List Nat)
    (hlen : ∀ l, (body l).length = l.length) :
    fork_in_out body data = Except.ok (body data) ∧
    (body data).length = data.length ∧
    fork_in_out incBody [1, 2, 3, 4, 5] = Except.ok [2, 3, 4, 5, 6] := by
  refine ⟨?_, hlen data, rfl⟩
  have h1 : read_exactM data data.length = Except.ok (data, []) := by
    simp [read_exactM]
  have h2 : read_exactM (body data) data.length = Except.ok (body data, []) := by
    rw [read_exactM, ← hlen data]
    simp
  simp [fork_in_out, h1, h2]

/-- Witness for C2: the concrete five-byte exchange observed by the parent. -/
theorem claim_C2_witness :
    fork_in_out incBody [1, 2, 3, 4, 5] = Except.ok [2, 3, 4, 5, 6] :=
  (claim_C2 incBody [1, 2, 3, 4, 5] (fun l => by simp [incBody])).2.2

/-- C6: the teardown drain loop splits each captured stream on line-feed
bytes, decodes every chunk with lossy UTF-8, and re-emits each chunk to the
parent's corresponding stream: a zero-byte stream emits nothing; without a
read error every byte is emitted, so a final chunk lacking a trailing
line-feed is still flushed at end-of-stream; chunks are nonempty and carry
a line-feed only as their last byte; and each stream's drain result depends
only on that stream, so a read error on one stream leaves the other
stream's teardown untouched. -/
theorem claim_C6 (bytes : List Nat) (err e : Bool) (s1 s2 : StreamModel) :
    drainOutput ⟨[], e⟩ = [] ∧
    (drainGo false bytes []).flatten = bytes ∧
    (∀ c ∈ drainGo err bytes [], c ≠ [] ∧ ∀ x ∈ c.dropLast, x ≠ 10) ∧
    drainOutput ⟨bytes, err⟩ = (drainGo err bytes []).map utf8LossyChars ∧
    (killOnDropTeardown s1 s2).1 = drainOutput s1 ∧
    (killOnDropTeardown s1 s2).2 = drainOutput s2 := by
  refine ⟨?_, by simpa using drainGo_flatten bytes [],
    drainGo_chunk_shape err bytes [] (by simp), rfl, rfl, rfl⟩
  cases e <;> rfl

/-- Witness for C6: chunk-shape facts applied to a concrete stream holding
one full line and one unterminated line. -/
theorem claim_C6_witness :
    (([104, 10] : List Nat) ≠ [] ∧ ∀ x ∈ ([104, 10] : List Nat).dropLast, x ≠ 10) ∧
    (drainGo false [104, 10, 111] []).flatten = [104, 10, 111] := by
  have h := claim_C6 [104, 10, 111] false false ⟨[], false⟩ ⟨[], false⟩
  exact ⟨h.2.2.1 [104, 10] (by decide), h.2.1⟩

/-- C7: in parent role, a spawn failure is propagated to the immediate
caller as the typed `SpawnError` variant wrapping the underlying OS error
(via the `From<io::Error>` conversion), and the supervision step is never
run: the result is the same for every supervision function. -/
theorem claim_C7 {Child R T : Type} (occursEnv : Option (List Char))
    (forkId testName exe : List Char) (args runTestArgs : List (List Char))
    (extraEnv : List (List Char × List Char))
    (spawnFn : SpawnDescriptor → Except Nat Child) (inParent : Child → R)
    (childOutcome : Except Unit T) (report : T → Nat) (ec : Nat)
    (hparent : containsSeq (occursEnv.getD []) forkId = false)
    (hguard : (occursEnv.getD []).length ≤ 16 * OCCURS_TERM_LENGTH)
    (hspawn : ∀ d, spawnFn d = Except.error ec) :
    fork_impl occursEnv forkId testName exe (Except.ok args) runTestArgs
        extraEnv spawnFn inParent childOutcome report =
      ForkResult.err (Error.SpawnError ec) ∧
    ∀ inParent2 : Child → R,
      fork_impl occursEnv forkId testName exe (Except.ok args) runTestArgs
          extraEnv spawnFn inParent2 childOutcome report =
        ForkResult.err (Error.SpawnError ec) := by
  have hg : ¬ (occursEnv.getD []).length > 16 * OCCURS_TERM_LENGTH := by omega
  constructor
  · simp [fork_impl, hparent, hg, hspawn, errorFromIo]
  · intro inParent2
    simp [fork_impl, hparent, hg, hspawn, errorFromIo]

/-- Witness for C7 at a concrete failing spawn. -/
theorem claim_C7_witness :
    @fork_impl Unit Unit Unit none sampleId [] []
      (Except.ok []) [] [] (fun _ => Except.error 2) (fun _ => ())
      (Except.ok ()) (fun _ => 0) = ForkResult.err (Error.SpawnError 2) :=
  (claim_C7 none sampleId [] [] [] [] [] (fun _ => Except.error 2)
    (fun _ => ()) (Except.ok ()) (fun _ => 0) 2 (by decide) (by decide)
    (fun _ => rfl)).1

/-- C8: the spawn descriptor is built exactly as claimed: the current
executable re-invoked with the filtered original arguments, then the fixed
run-single-test arguments, then the test name last; the trail environment
variable is the previous trail with this call's Fork-Point Identity
appended (the input trail itself is immutable and only the descriptor built
at spawn time carries the extension); stdin is suppressed and stdout and
stderr are captured; and `fork_impl` in parent role spawns exactly this
descriptor. -/
theorem claim_C8 {Child R T : Type} (occurs : List Char)
    (forkId testName exe : List Char) (args runTestArgs : List (List Char))
    (extraEnv : List (List Char × List Char))
    (spawnFn : SpawnDescriptor → Except Nat Child) (inParent : Child → R)
    (childOutcome : Except Unit T) (report : T → Nat) (D : SpawnDescriptor)
    (hparent : containsSeq occurs forkId = false)
    (hguard : occurs.length ≤ 16 * OCCURS_TERM_LENGTH)
    (hD : D = buildCommand exe args runTestArgs testName (occurs ++ forkId)
      extraEnv) :
    (D.program = exe ∧ D.args = args ++ runTestArgs ++ [testName] ∧
      D.trailEnv = occurs ++ forkId ∧ D.extraEnv = extraEnv ∧
      D.stdinDisp = StdioDisp.null ∧ D.stdoutDisp = StdioDisp.piped ∧
      D.stderrDisp = StdioDisp.piped) ∧
    (∀ e2, spawnFn D = Except.error e2 →
      fork_impl (some occurs) forkId testName exe (Except.ok args)
          runTestArgs extraEnv spawnFn inParent childOutcome report =
        ForkResult.err (Error.SpawnError e2)) ∧
    (∀ c, spawnFn D = Except.ok c →
      fork_impl (some occurs) forkId testName exe (Except.ok args)
          runTestArgs extraEnv spawnFn inParent childOutcome report =
        ForkResult.ok (inParent c)) := by
  subst hD
  have hg : ¬ occurs.length > 16 * OCCURS_TERM_LENGTH := by omega
  refine ⟨⟨rfl, rfl, rfl, rfl, rfl, rfl, rfl⟩, ?_, ?_⟩
  · intro e2 he2
    simp [fork_impl, hparent, hg, he2, errorFromIo]
  · intro c hc2
    simp [fork_impl, hparent, hg, hc2]

/-- Witness for C8 at a concrete parent-role spawn. -/
theorem claim_C8_witness :
    @fork_impl Unit Unit Unit (some []) sampleId
      [] [] (Except.ok []) [] [] (fun _ => Except.ok ()) (fun _ => ())
      (Except.ok ()) (fun _ => 0) = ForkResult.ok () := by
  have h := @claim_C8 Unit Unit Unit [] sampleId []
    [] [] [] [] (fun _ => Except.ok ()) (fun _ => ()) (Except.ok ())
    (fun _ => 0) (buildCommand [] [] [] [] ([] ++ sampleId) []) (by decide)
    (by decide) rfl
  exact h.2.2 () rfl

/-- C9: because every Fork-Point Identity is ':' followed by 16 hex digits
(which never include ':'), an identity occurs as a substring of a trail
that is a concatenation of such entries if and only if it is exactly one of
the trail's entries: the substring-based role decision coincides with exact
entry membership. -/
theorem claim_C9 (entries : List (List Char)) (target : List Char)
    (hent : ∀ e ∈ entries, entryWf e) (htgt : entryWf target) :
    containsSeq entries.flatten target = true ↔ target ∈ entries :=
  ⟨entry_mem_of_contains entries target hent htgt,
    contains_of_entry_mem entries target⟩

/-- Witness for C9 at a concrete two-entry trail. -/
theorem claim_C9_witness : sampleEntry ∈ List.replicate 2 sampleEntry :=
  (claim_C9 (List.replicate 2 sampleEntry) sampleEntry (by decide)
    (by decide)).1 (by decide)

/-- C10: `fix_module_path` removes exactly the text up to and including the
first occurrence of `::` (only the leading segment, however many segments
follow), and returns its input unchanged when the input contains no `::`
at all. -/
theorem claim_C10 (p : List Char) :
    (containsSeq p [':', ':'] = false → fix_module_path p = p) ∧
    (∀ a b, p = a ++ ':' :: ':' :: b →
      containsSeq (a ++ [':']) [':', ':'] = false → fix_module_path p = b) := by
  constructor
  · intro h
    have hn : strFind [':', ':'] p = none := by
      have he := containsSeq_eq_isSome p [':', ':']
      rw [h] at he
      cases hf : strFind [':', ':'] p
      · rfl
      · rw [hf] at he
        simp at he
    simp [fix_module_path, hn]
  · rintro a b rfl hfirst
    rw [fix_module_path, strFind_first_occurrence a b hfirst]
    exact drop_append_two a b ':' ':'

/-- Witness for C10: stripping the crate segment of a concrete module
path. -/
theorem claim_C10_witness :
    fix_module_path "crate::mod::test".toList = "mod::test".toList :=
  (claim_C10 "crate::mod::test".toList).2 "crate".toList "mod::test".toList
    (by decide) (by decide)

end TestFork
